import Mathlib

/-!
Shallow embedding of two modules of the hfath/pyblosxom repository:

* `src/libs/entries/base.py` — the `EntryBase` class: a dictionary-like
  entry object with a content slot, a metadata dictionary, and derived
  time-formatted string fields (`setTime`).
* `src/Pyblosxom/plugins/readmore.py` — the `cb_story` callback: a
  summary splitter that searches the entry body for a breakpoint marker
  and either strips it (single-entry rendering) or truncates the body
  and inserts a "read more" link (listing rendering).

Strings are modelled as `List Char` (Python `str`).  Python dictionaries
are modelled as association lists with CPython's update-in-place
semantics (`dictSet` keeps the position of an existing key, appends new
keys at the end); `keys()` order is the insertion order, as in CPython.
Exceptions (`KeyError`) are modelled by `Option` results or by an
explicit "raised" boolean paired with the unchanged state.
-/

set_option linter.unusedVariables false

/-! ## Python dictionaries as association lists -/

/-- Lookup of a key in a Python dictionary (`d[k]` / `d.get(k)` without
default): `some v` when the key is present, `none` when absent. -/
def dictFind {α β : Type} [DecidableEq α] (k : α) : List (α × β) → Option β
  | [] => none
  | (k', v') :: rest => if k' = k then some v' else dictFind k rest

/-- Python `d[k] = v`: update in place when the key is present, append
at the end otherwise (CPython insertion-order semantics). -/
def dictSet {α β : Type} [DecidableEq α] (k : α) (v : β) : List (α × β) → List (α × β)
  | [] => [(k, v)]
  | (k', v') :: rest => if k' = k then (k, v) :: rest else (k', v') :: dictSet k v rest

/-- Python `del d[k]`: `some` of the dictionary without the key when the
key is present, `none` (a raised `KeyError`) when absent. -/
def dictDel {α β : Type} [DecidableEq α] (k : α) : List (α × β) → Option (List (α × β))
  | [] => none
  | (k', v') :: rest =>
    if k' = k then some rest else (dictDel k rest).map (fun m => (k', v') :: m)

/-- Python `d.has_key(k)` / `k in d`. -/
def dictHasKey {α β : Type} [DecidableEq α] (k : α) (d : List (α × β)) : Bool :=
  (dictFind k d).isSome

/-- Python `d.keys()` in insertion order. -/
def dictKeys {α β : Type} (d : List (α × β)) : List α :=
  d.map Prod.fst

/-! ## Time tuples and `time.strftime`

`EntryBase.setTime` receives a `time.struct_time`-shaped tuple.  Python's
`time.strftime` validates the field ranges (`ValueError` otherwise); the
predicate `TimeTuple.Valid` below records those ranges, and the theorems
about `setTime` assume it so that the model only speaks about inputs on
which CPython's `strftime` succeeds.  In `struct_time`, `tm_wday` counts
from Monday = 0.  The `%Z` directive renders the environment's timezone
name, which is not a function of the tuple; the model threads it through
as the explicit argument `tz`. -/

/-- The `time.struct_time` fields used by the formats in `setTime`. -/
structure TimeTuple where
  tm_year : Nat
  tm_mon : Nat
  tm_mday : Nat
  tm_hour : Nat
  tm_min : Nat
  tm_sec : Nat
  tm_wday : Nat
  tm_yday : Nat
  tm_isdst : Int
deriving DecidableEq, Repr

/-- Field ranges accepted by CPython's `time.strftime` (its `checktm`). -/
def TimeTuple.Valid (t : TimeTuple) : Prop :=
  1 ≤ t.tm_mon ∧ t.tm_mon ≤ 12 ∧
  1 ≤ t.tm_mday ∧ t.tm_mday ≤ 31 ∧
  t.tm_hour ≤ 23 ∧ t.tm_min ≤ 59 ∧ t.tm_sec ≤ 61 ∧
  t.tm_wday ≤ 6 ∧ 1 ≤ t.tm_yday ∧ t.tm_yday ≤ 366

instance (t : TimeTuple) : Decidable t.Valid := by
  unfold TimeTuple.Valid; infer_instance

/-- The decimal digit character of `n % 10`. -/
def digitChar (n : Nat) : Char := Char.ofNat (48 + n % 10)

/-- Decimal digits, most significant first, with structural fuel (the
fuel never runs out when it starts at `n + 1`, since `n / 10 < n`). -/
def natToDigitsAux : Nat → Nat → List Char → List Char
  | _, 0, acc => '0' :: acc
  | 0, _, acc => acc
  | fuel + 1, n, acc =>
    if n < 10 then digitChar n :: acc
    else natToDigitsAux fuel (n / 10) (digitChar n :: acc)

/-- Decimal digits of a natural number, most significant first. -/
def natToDigits (n : Nat) : List Char :=
  if n = 0 then ['0'] else natToDigitsAux (n + 1) n []

/-- Zero-padded two-digit decimal rendering (`%H`, `%M`, `%S`, `%m`, `%d`). -/
def pad2 (n : Nat) : List Char :=
  if n < 10 then ['0', digitChar n] else natToDigits n

/-- C-locale month abbreviations, for `%b` (month 1 = Jan). -/
def monthNames : List (List Char) :=
  ["Jan".toList, "Feb".toList, "Mar".toList, "Apr".toList, "May".toList, "Jun".toList,
   "Jul".toList, "Aug".toList, "Sep".toList, "Oct".toList, "Nov".toList, "Dec".toList]

/-- Abbreviated month name of `tm_mon` (`%b`). -/
def monthAbbrev (m : Nat) : List Char := monthNames.getD (m - 1) []

/-- C-locale weekday abbreviations for `%a`, indexed by `struct_time`'s
`tm_wday` (Monday = 0; CPython rotates before calling C `strftime`). -/
def dayNames : List (List Char) :=
  ["Mon".toList, "Tue".toList, "Wed".toList, "Thu".toList, "Fri".toList,
   "Sat".toList, "Sun".toList]

/-- Abbreviated weekday name of `tm_wday` (`%a`). -/
def dayAbbrev (w : Nat) : List Char := dayNames.getD w []

/-- `time.strftime('%H:%M', t)`. -/
def fmtTi (t : TimeTuple) : List Char :=
  pad2 t.tm_hour ++ [':'] ++ pad2 t.tm_min

/-- `time.strftime('%b', t)`. -/
def fmtMo (t : TimeTuple) : List Char := monthAbbrev t.tm_mon

/-- `time.strftime('%m', t)`. -/
def fmtMoNum (t : TimeTuple) : List Char := pad2 t.tm_mon

/-- `time.strftime('%d', t)`. -/
def fmtDa (t : TimeTuple) : List Char := pad2 t.tm_mday

/-- `time.strftime('%Y', t)`. -/
def fmtYr (t : TimeTuple) : List Char := natToDigits t.tm_year

/-- `time.strftime('%Y%m%d%H%M%S', t)`. -/
def fmtFulltime (t : TimeTuple) : List Char :=
  natToDigits t.tm_year ++ pad2 t.tm_mon ++ pad2 t.tm_mday ++
    pad2 t.tm_hour ++ pad2 t.tm_min ++ pad2 t.tm_sec

/-- `time.strftime('%Y-%m-%dT%H:%M:%S%Z', t)`, with the environment's
timezone name `tz` for `%Z`. -/
def fmtW3cdate (tz : List Char) (t : TimeTuple) : List Char :=
  natToDigits t.tm_year ++ ['-'] ++ pad2 t.tm_mon ++ ['-'] ++ pad2 t.tm_mday ++
    ['T'] ++ pad2 t.tm_hour ++ [':'] ++ pad2 t.tm_min ++ [':'] ++ pad2 t.tm_sec ++ tz

/-- `time.strftime('%a, %d %b %Y', t)`. -/
def fmtDate (t : TimeTuple) : List Char :=
  dayAbbrev t.tm_wday ++ ", ".toList ++ pad2 t.tm_mday ++ [' '] ++
    monthAbbrev t.tm_mon ++ [' '] ++ natToDigits t.tm_year

/-! ## `EntryBase` (src/libs/entries/base.py) -/

/-- Python values held by an entry: the content slot starts as `None`,
metadata values are strings, the raw time tuple, or small integers. -/
inductive PyVal where
  | str : List Char → PyVal
  | timeTup : TimeTuple → PyVal
  | int : Int → PyVal
  | pyNone : PyVal
deriving DecidableEq, Repr

/-- Python `str(v)` on the values of the model that reach it. -/
def pyStr (v : PyVal) : List Char :=
  match v with
  | .str s => s
  | .pyNone => "None".toList
  | .int i => (toString i).toList
  | .timeTup _ => []

/-- `CONTENT_KEY = "content"` from base.py. -/
def CONTENT_KEY : List Char := "content".toList

/-- The `EntryBase` state: the `_data` slot and the `_metadata` dict. -/
structure EntryBase where
  _data : PyVal
  _metadata : List (List Char × PyVal)
deriving DecidableEq, Repr

/-- `EntryBase.__init__`: `_data = None`, `_metadata = {}`. -/
def EntryBase.empty : EntryBase :=
  { _data := .pyNone, _metadata := [] }

/-- `EntryBase.getData`: `return str(self._data)`. -/
def EntryBase.getData (e : EntryBase) : List Char :=
  pyStr e._data

/-- `EntryBase.setData`: `self._data = data`. -/
def EntryBase.setData (e : EntryBase) (d : PyVal) : EntryBase :=
  { e with _data := d }

/-- `EntryBase.__getitem__` with its default `None`: intercepts
`CONTENT_KEY` and returns `self.getData()`, otherwise
`self._metadata.get(key, None)`. -/
def EntryBase.getItem (e : EntryBase) (k : List Char) : PyVal :=
  if k = CONTENT_KEY then .str e.getData
  else (dictFind k e._metadata).getD .pyNone

/-- `EntryBase.__setitem__`: `self._metadata[key] = value`. -/
def EntryBase.setItem (e : EntryBase) (k : List Char) (v : PyVal) : EntryBase :=
  { e with _metadata := dictSet k v e._metadata }

/-- `EntryBase.__delitem__` run as a statement: `del self._metadata[key]`
either removes the key, or raises `KeyError` (second component `true`)
leaving the entry exactly as it was. -/
def EntryBase.delItemRun (e : EntryBase) (k : List Char) : EntryBase × Bool :=
  match dictDel k e._metadata with
  | some m => ({ e with _metadata := m }, false)
  | none => (e, true)

/-- `EntryBase.has_key`: `1` for `CONTENT_KEY`, else a metadata test. -/
def EntryBase.hasKey (e : EntryBase) (k : List Char) : Bool :=
  if k = CONTENT_KEY then true else dictHasKey k e._metadata

/-- `EntryBase.keys`: `self._metadata.keys() + [CONTENT_KEY,]`. -/
def EntryBase.keys (e : EntryBase) : List (List Char) :=
  dictKeys e._metadata ++ [CONTENT_KEY]

/-- `EntryBase.setTime`: stores the raw tuple under `timetuple` and the
eight derived strings, via `self[...] = ...` (i.e. `__setitem__`), in
source order. -/
def EntryBase.setTime (e : EntryBase) (tz : List Char) (t : TimeTuple) : EntryBase :=
  ((((((((e.setItem "timetuple".toList (.timeTup t)
    ).setItem "ti".toList (.str (fmtTi t))
    ).setItem "mo".toList (.str (fmtMo t))
    ).setItem "mo_num".toList (.str (fmtMoNum t))
    ).setItem "da".toList (.str (fmtDa t))
    ).setItem "yr".toList (.str (fmtYr t))
    ).setItem "fulltime".toList (.str (fmtFulltime t))
    ).setItem "w3cdate".toList (.str (fmtW3cdate tz t))
    ).setItem "date".toList (.str (fmtDate t))

/-- The eight derived string keys that the spec documents for `setTime`. -/
def derivedStringKeys : List (List Char) :=
  ["ti".toList, "mo".toList, "mo_num".toList, "da".toList, "yr".toList,
   "fulltime".toList, "w3cdate".toList, "date".toList]

/-- All nine metadata keys that `setTime` actually writes. -/
def setTimeKeys : List (List Char) :=
  "timetuple".toList :: derivedStringKeys

/-- The value `setTime` stores under each of its nine keys, as a function
of the timezone name and the tuple alone. -/
def setTimeValModel (tz : List Char) (t : TimeTuple) (k : List Char) : PyVal :=
  if k = "timetuple".toList then .timeTup t
  else if k = "ti".toList then .str (fmtTi t)
  else if k = "mo".toList then .str (fmtMo t)
  else if k = "mo_num".toList then .str (fmtMoNum t)
  else if k = "da".toList then .str (fmtDa t)
  else if k = "yr".toList then .str (fmtYr t)
  else if k = "fulltime".toList then .str (fmtFulltime t)
  else if k = "w3cdate".toList then .str (fmtW3cdate tz t)
  else .str (fmtDate t)

/-! ## The readmore plugin (src/Pyblosxom/plugins/readmore.py)

`cb_story` searches the entry body with the Python regular expression
`'(' + breakpoint + ')(.*?)(<[ ]*?[^/].+|[\n])'` (the breakpoint itself
taken as literal text, as it is with the default value `"BREAK"`).  The
functions below embed exactly the backtracking semantics of that
pattern: `re.search` picks the leftmost starting position at which the
whole pattern matches; group 2 is lazy, so it ends at the first later
position where group 3 can match; `.` never matches a newline; the
negated class `[^/]` matches any character but `/`.  Only
`match.start(1)` (= the match start, since group 1 opens the pattern)
and `match.group(2)` are used by the plugin, so the search result is
modelled as that pair. -/

/-- Matcher for `[ ]*?[^/].+` (the tail of the opening-tag alternative
of group 3): some run of spaces, one character other than `/`, then at
least one non-newline character. -/
def spacesThenTag : List Char → Bool
  | [] => false
  | c :: rest =>
    ((c != '/') && (match rest with | d :: _ => d != '\n' | [] => false))
      || ((c == ' ') && spacesThenTag rest)

/-- Matcher for the opening-tag alternative `<[ ]*?[^/].+` of group 3. -/
def tagMatch : List Char → Bool
  | [] => false
  | c :: rest => (c == '<') && spacesThenTag rest

/-- Can group 3 — `(<[ ]*?[^/].+|[\n])` — match at this position? -/
def group3Match : List Char → Bool
  | [] => false
  | c :: rest => tagMatch (c :: rest) || (c == '\n')

/-- Lazy matching of `(.*?)` up to the first position where group 3
matches: returns group 2's text, or `none` when the rest of the pattern
cannot match here (`.` cannot cross a newline, and group 3 never fails
on a newline, so failure means the end of the input was reached). -/
def findG2 : List Char → Option (List Char)
  | [] => none
  | c :: rest =>
    if group3Match (c :: rest) then some []
    else if c == '\n' then none
    else (findG2 rest).map (fun g => c :: g)

/-- `re.search` scan: try each start position left to right; at a
position where the breakpoint is a prefix and the rest of the pattern
matches, return the start index and group 2. -/
def reSearchAux (bp : List Char) : List Char → Nat → Option (Nat × List Char)
  | [], _ => none
  | c :: rest, i =>
    match (if bp.isPrefixOf (c :: rest) then findG2 ((c :: rest).drop bp.length) else none) with
    | some g2 => some (i, g2)
    | none => reSearchAux bp rest (i + 1)

/-- `re.search('(' + bp + ')(.*?)(<[ ]*?[^/].+|[\n])', body)`, as the
pair (match start, group 2) when a match exists. -/
def reSearch (bp body : List Char) : Option (Nat × List Char) :=
  reSearchAux bp body 0

/-- Scan of `re.sub(bp, "", body)` with structural fuel: at an
occurrence of the (nonempty) pattern, skip it and continue after it;
otherwise keep the character.  Each step consumes at least one
character, so fuel `l.length` never runs out. -/
def reSubEmptyAux (bp : List Char) : Nat → List Char → List Char
  | _, [] => []
  | 0, l => l
  | fuel + 1, c :: rest =>
    if 0 < bp.length ∧ bp.isPrefixOf (c :: rest) then
      reSubEmptyAux bp fuel ((c :: rest).drop bp.length)
    else
      c :: reSubEmptyAux bp fuel rest

/-- `re.sub(bp, "", body)` for a literal pattern: remove the leftmost
non-overlapping occurrences of `bp`. -/
def reSubEmpty (bp : List Char) (l : List Char) : List Char :=
  reSubEmptyAux bp l.length l

/-- The same scan as `reSubEmptyAux`, keeping the segments between the
occurrences instead of discarding the match positions. -/
def splitOnMarkerAux (bp : List Char) : Nat → List Char → List (List Char)
  | _, [] => [[]]
  | 0, l => [l]
  | fuel + 1, c :: rest =>
    if 0 < bp.length ∧ bp.isPrefixOf (c :: rest) then
      [] :: splitOnMarkerAux bp fuel ((c :: rest).drop bp.length)
    else
      match splitOnMarkerAux bp fuel rest with
      | seg :: segs => (c :: seg) :: segs
      | [] => [[c]]

/-- The segments of `l` between the leftmost non-overlapping occurrences
of `bp` (the scan of `reSubEmpty`); a list of `N + 1` segments witnesses
`N` occurrences found by the left-to-right scan. -/
def splitOnMarker (bp : List Char) (l : List Char) : List (List Char) :=
  splitOnMarkerAux bp l.length l

/-- Concatenation with a separator between consecutive segments; the
inverse of `splitOnMarker`. -/
def joinWith (sep : List Char) : List (List Char) → List Char
  | [] => []
  | [x] => x
  | x :: y :: rest => x ++ sep ++ joinWith sep (y :: rest)

/-! ### Python `%` string formatting, for the link template

Only the `%(name)s` directives (and `%%`) are interpreted, which is all
the plugin's mapping-based template formatting uses. -/

/-- After `'%('`: read the name up to `')'`, require the `'s'`
conversion, and return the name together with the rest of the input. -/
def splitKey : List Char → Option (List Char × List Char)
  | [] => none
  | c :: rest =>
    if c = ')' then
      match rest with
      | c2 :: rest2 => if c2 = 's' then some ([], rest2) else none
      | [] => none
    else
      match splitKey rest with
      | some (nm, rest2) => some (c :: nm, rest2)
      | none => none

theorem splitKey_length {l nm rest : List Char}
    (h : splitKey l = some (nm, rest)) : rest.length < l.length := by
  induction l generalizing nm rest with
  | nil => simp [splitKey] at h
  | cons c cs ih =>
    simp only [splitKey] at h
    by_cases hc : c = ')'
    · rw [if_pos hc] at h
      cases cs with
      | nil => simp at h
      | cons c2 rest2 =>
        by_cases hc2 : c2 = 's'
        · simp only [hc2, if_true] at h
          injection h with h1
          injection h1 with h1 h2
          subst h2
          simp only [List.length_cons]
          omega
        · simp [hc2] at h
    · rw [if_neg hc] at h
      cases hsk : splitKey cs with
      | none => rw [hsk] at h; exact absurd h (by simp)
      | some p =>
        obtain ⟨nm', rest'⟩ := p
        rw [hsk] at h
        injection h with h1
        injection h1 with h1 h2
        subst h2
        have := ih hsk
        simp only [List.length_cons]
        omega

/-- Formatting scan with structural fuel (each step consumes at least
one character, so fuel `l.length` never runs out). -/
def pyFormatAux (m : List (List Char × List Char)) : Nat → List Char → List Char
  | _, [] => []
  | 0, l => l
  | _ + 1, [c] => [c]
  | fuel + 1, c :: c2 :: rest2 =>
    if c = '%' then
      if c2 = '(' then
        match splitKey rest2 with
        | some (nm, rest3) => ((dictFind nm m).getD []) ++ pyFormatAux m fuel rest3
        | none => c :: pyFormatAux m fuel (c2 :: rest2)
      else if c2 = '%' then '%' :: pyFormatAux m fuel rest2
      else c :: pyFormatAux m fuel (c2 :: rest2)
    else c :: pyFormatAux m fuel (c2 :: rest2)

/-- `template % m` for a mapping `m`, interpreting `%(name)s` and `%%`
(the only directives the plugin's templates use). -/
def pyFormat (m : List (List Char × List Char)) (l : List Char) : List Char :=
  pyFormatAux m l.length l

/-! ### `cb_story` -/

/-- `READMORE_BREAKPOINT = "BREAK"`. -/
def READMORE_BREAKPOINT : List Char := "BREAK".toList

/-- `READMORE_TEMPLATE` from the plugin. -/
def READMORE_TEMPLATE : List Char :=
  ("<p class=\"readmore\"><a href=\"%(url)s\">read more after the break...</a></p>").toList

/-- The fields of the story entry that `cb_story` reads or writes.
`body = none` models an entry without a `body` key. -/
structure StoryEntry where
  body : Option (List Char)
  file_path : List Char
  just_summary : Option Int
deriving DecidableEq, Repr

/-- The configuration keys `cb_story` consults (`none` = key absent). -/
structure ReadmoreConfig where
  readmore_breakpoint : Option (List Char)
  readmore_template : Option (List Char)
  base_url : Option (List Char)
  default_flavour : Option (List Char)
deriving DecidableEq, Repr

/-- The request-data keys `cb_story` consults. -/
structure RequestData where
  bl_type : List Char
  flavour : Option (List Char)
deriving DecidableEq, Repr

/-- The breakpoint in effect: `config.get("readmore_breakpoint", READMORE_BREAKPOINT)`. -/
def effBreakpoint (cfg : ReadmoreConfig) : List Char :=
  cfg.readmore_breakpoint.getD READMORE_BREAKPOINT

/-- The flavour in effect:
`data.get("flavour", config.get("default_flavour", "html"))`. -/
def effFlavour (cfg : ReadmoreConfig) (data : RequestData) : List Char :=
  data.flavour.getD (cfg.default_flavour.getD "html".toList)

/-- The rendered link: `url = '%s/%s.%s' % (base_url, file_path, flavour)`
substituted into the template with the four-key mapping. -/
def readmoreLink (cfg : ReadmoreConfig) (data : RequestData)
    (fp burl : List Char) : List Char :=
  let template := cfg.readmore_template.getD READMORE_TEMPLATE
  let flav := effFlavour cfg data
  let url := burl ++ ['/'] ++ fp ++ ['.'] ++ flav
  pyFormat [("url".toList, url), ("base_url".toList, burl),
            ("file_path".toList, fp), ("flavour".toList, flav)] template

/-- `cb_story`, modelled as a function from (config, data, entry) to the
resulting entry plus a "raised `KeyError`" flag (on a raise the entry is
returned exactly as it was, matching Python exception propagation). -/
def cb_story (cfg : ReadmoreConfig) (data : RequestData) (e : StoryEntry) :
    StoryEntry × Bool :=
  match e.body with
  | none => (e, false)
  | some body =>
    let bp := effBreakpoint cfg
    match reSearch bp body with
    | none => (e, false)
    | some (i, g2) =>
      if data.bl_type = "file".toList then
        ({ e with body := some (reSubEmpty bp body) }, false)
      else
        match cfg.base_url with
        | none => (e, true)
        | some burl =>
          let link := readmoreLink cfg data e.file_path burl
          ({ e with just_summary := some 1,
                    body := some (body.take i ++ link ++ g2) }, false)

/-! ## Dictionary lemmas -/

theorem dictFind_dictSet {α β : Type} [DecidableEq α] (k k' : α) (v : β)
    (d : List (α × β)) :
    dictFind k (dictSet k' v d) = if k' = k then some v else dictFind k d := by
  induction d with
  | nil => simp [dictSet, dictFind]
  | cons p rest ih =>
    obtain ⟨a, b⟩ := p
    simp only [dictSet]
    by_cases hak : a = k'
    · subst hak
      simp only [if_pos rfl, dictFind]
      by_cases hk : a = k
      · simp [hk]
      · simp [hk, dictFind]
    · rw [if_neg hak]
      simp only [dictFind, ih]
      by_cases hk : a = k
      · subst hk
        have : ¬ k' = a := fun h => hak h.symm
        simp [this]
      · simp [hk]

theorem dictDel_isSome {α β : Type} [DecidableEq α] (k : α) (d : List (α × β)) :
    (dictDel k d).isSome = dictHasKey k d := by
  induction d with
  | nil => simp [dictDel, dictHasKey, dictFind]
  | cons p rest ih =>
    obtain ⟨a, b⟩ := p
    simp only [dictDel, dictHasKey, dictFind]
    by_cases hak : a = k
    · simp [hak]
    · simp only [if_neg hak]
      cases hdd : dictDel k rest <;> simp_all [dictHasKey]

theorem dictFind_eq_none_iff {α β : Type} [DecidableEq α] (k : α) (d : List (α × β)) :
    dictFind k d = none ↔ k ∉ dictKeys d := by
  induction d with
  | nil => simp [dictFind, dictKeys]
  | cons p rest ih =>
    obtain ⟨a, b⟩ := p
    simp only [dictFind, dictKeys, List.map_cons, List.mem_cons]
    by_cases hak : a = k
    · simp [hak]
    · simp only [if_neg hak]
      rw [ih]
      simp [dictKeys]
      intro h
      exact fun heq => hak heq.symm

/-! ## Lookup behavior of `setTime` -/

theorem setTime_find (tz : List Char) (t : TimeTuple) (e : EntryBase) (k : List Char) :
    dictFind k (e.setTime tz t)._metadata =
      if k ∈ setTimeKeys then some (setTimeValModel tz t k)
      else dictFind k e._metadata := by
  by_cases hk : k ∈ setTimeKeys
  · rw [if_pos hk]
    simp only [setTimeKeys, derivedStringKeys, List.mem_cons, List.not_mem_nil, or_false] at hk
    rcases hk with h | h | h | h | h | h | h | h | h <;> subst h <;>
      simp [EntryBase.setTime, EntryBase.setItem, dictFind_dictSet, setTimeValModel]
  · rw [if_neg hk]
    simp only [setTimeKeys, derivedStringKeys, List.mem_cons, List.not_mem_nil, or_false,
      not_or] at hk
    obtain ⟨h1, h2, h3, h4, h5, h6, h7, h8, h9⟩ := hk
    have n1 : ¬ ("timetuple".toList = k) := fun h => h1 h.symm
    have n2 : ¬ ("ti".toList = k) := fun h => h2 h.symm
    have n3 : ¬ ("mo".toList = k) := fun h => h3 h.symm
    have n4 : ¬ ("mo_num".toList = k) := fun h => h4 h.symm
    have n5 : ¬ ("da".toList = k) := fun h => h5 h.symm
    have n6 : ¬ ("yr".toList = k) := fun h => h6 h.symm
    have n7 : ¬ ("fulltime".toList = k) := fun h => h7 h.symm
    have n8 : ¬ ("w3cdate".toList = k) := fun h => h8 h.symm
    have n9 : ¬ ("date".toList = k) := fun h => h9 h.symm
    unfold EntryBase.setTime EntryBase.setItem
    simp only [dictFind_dictSet]
    rw [if_neg n9, if_neg n8, if_neg n7, if_neg n6, if_neg n5, if_neg n4,
      if_neg n3, if_neg n2, if_neg n1]

/-! ## Claims about `EntryBase` -/

/-- A sequence of metadata writes through `__setitem__`. -/
def applyWrites (ws : List (List Char × PyVal)) (e : EntryBase) : EntryBase :=
  ws.foldl (fun acc kv => acc.setItem kv.1 kv.2) e

theorem applyWrites_data (ws : List (List Char × PyVal)) (e : EntryBase) :
    (applyWrites ws e)._data = e._data := by
  induction ws generalizing e with
  | nil => rfl
  | cons kv rest ih =>
    simp only [applyWrites, List.foldl_cons] at *
    rw [ih]
    rfl

/-- C9: on a freshly constructed entry whose content slot was never set,
`getData` returns the string `"None"` (the stringification of the
`None`-initialized slot), which is neither empty nor an error. -/
theorem C9_fresh_getData_is_None :
    EntryBase.empty.getData = "None".toList ∧ EntryBase.empty.getData ≠ [] := by
  decide

/-- C7: after any sequence of metadata writes through the generic setter
(including writes to the reserved content key), reading the reserved
content key through `__getitem__` returns exactly the string produced by
the live `getData` accessor — which the writes do not affect — and never
a value stored in the metadata map. -/
theorem C7_content_key_always_live (e : EntryBase) (ws : List (List Char × PyVal)) :
    (applyWrites ws e).getItem CONTENT_KEY = .str ((applyWrites ws e).getData) ∧
    (applyWrites ws e).getData = e.getData := by
  constructor
  · rw [EntryBase.getItem, if_pos rfl]
  · rw [EntryBase.getData, EntryBase.getData, applyWrites_data]

/-- C8: `__delitem__` raises exactly when the key is absent from the
metadata map (the dictionary's standard `KeyError`); the resulting
metadata is the map without the key on success, and the entry is left
completely unchanged on failure. -/
theorem C8_delete_iff_present (e : EntryBase) (k : List Char) :
    (e.delItemRun k).2 = !dictHasKey k e._metadata ∧
    (e.delItemRun k).1._metadata = (dictDel k e._metadata).getD e._metadata ∧
    (e.delItemRun k).1._data = e._data ∧
    (dictHasKey k e._metadata = false → (e.delItemRun k).1 = e) := by
  have hds := dictDel_isSome k e._metadata
  cases hdd : dictDel k e._metadata with
  | none =>
    rw [hdd] at hds
    simp at hds
    simp [EntryBase.delItemRun, hdd, hds]
  | some m =>
    rw [hdd] at hds
    simp at hds
    simp [EntryBase.delItemRun, hdd, hds]

/-- C3 counterexample: writing the reserved content key through the
generic setter makes `keys()` list it twice (once from the metadata map
and once from the unconditionally appended reserved key), refuting
"exactly once ... even if it was explicitly written through the generic
setter". -/
theorem C3_counterexample :
    (EntryBase.empty.setItem CONTENT_KEY (.str "x".toList)).keys.count CONTENT_KEY = 2 := by
  decide

/-- C3 (amended): `keys()` contains the reserved content key exactly
once more than the metadata map does — hence exactly once whenever the
reserved key was never written through the generic setter (in
particular on entries where it was never explicitly set), and twice
after such a write. -/
theorem C3_keys_content_once (e : EntryBase) :
    e.keys.count CONTENT_KEY = (dictKeys e._metadata).count CONTENT_KEY + 1 ∧
    (dictHasKey CONTENT_KEY e._metadata = false → e.keys.count CONTENT_KEY = 1) := by
  constructor
  · simp [EntryBase.keys, List.count_append]
  · intro habs
    have hnone : dictFind CONTENT_KEY e._metadata = none := by
      simp [dictHasKey] at habs
      exact habs
    have hmem : CONTENT_KEY ∉ dictKeys e._metadata :=
      (dictFind_eq_none_iff CONTENT_KEY e._metadata).mp hnone
    have hcount : (dictKeys e._metadata).count CONTENT_KEY = 0 :=
      List.count_eq_zero.mpr hmem
    simp [EntryBase.keys, List.count_append, hcount]

/-- C3 witness: on a freshly constructed entry the reserved content key
appears in `keys()` exactly once. -/
theorem C3_keys_content_once_witness :
    EntryBase.empty.keys.count CONTENT_KEY = 1 :=
  (C3_keys_content_once EntryBase.empty).2 (by decide)

/-- C1 counterexample: for a perfectly valid instant, `setTime` also
writes the `timetuple` metadata key (holding the raw tuple), which is
not one of the eight documented derived string fields — refuting "writes
no other metadata key". -/
theorem C1_counterexample :
    (⟨2024, 1, 1, 0, 0, 0, 0, 1, 0⟩ : TimeTuple).Valid ∧
    dictHasKey "timetuple".toList
      ((EntryBase.empty.setTime "UTC".toList ⟨2024, 1, 1, 0, 0, 0, 0, 1, 0⟩)._metadata) = true ∧
    "timetuple".toList ∉ derivedStringKeys := by
  refine ⟨by decide, by decide, by decide⟩

/-- C1 (amended): for every valid instant, `setTime` stores exactly the
eight documented derived string fields plus the raw `timetuple` key —
each a function of the new instant (and timezone name) alone — and
writes no other metadata key; a second call overwrites all nine, so no
lookup can see a value from the first call. -/
theorem C1_setTime_nine_keys (tz : List Char) (t : TimeTuple) (e : EntryBase)
    (hv : t.Valid) :
    (∀ k, k ∈ setTimeKeys →
        dictFind k (e.setTime tz t)._metadata = some (setTimeValModel tz t k)) ∧
    (∀ k, k ∉ setTimeKeys →
        dictFind k (e.setTime tz t)._metadata = dictFind k e._metadata) ∧
    (∀ tz' t', t'.Valid →
        ∀ k, dictFind k ((e.setTime tz' t').setTime tz t)._metadata =
          dictFind k (e.setTime tz t)._metadata) := by
  refine ⟨?_, ?_, ?_⟩
  · intro k hk
    rw [setTime_find, if_pos hk]
  · intro k hk
    rw [setTime_find, if_neg hk]
  · intro tz' t' hv' k
    rw [setTime_find tz t (e.setTime tz' t') k, setTime_find tz t e k]
    by_cases hk : k ∈ setTimeKeys
    · rw [if_pos hk, if_pos hk]
    · rw [if_neg hk, if_neg hk, setTime_find, if_neg hk]

/-- C1 witness: instantiation at a concrete valid instant; after a
second `setTime` call the month-abbreviation key holds the value derived
from the second instant. -/
theorem C1_setTime_nine_keys_witness :
    dictFind "mo".toList
      (((EntryBase.empty.setTime "UTC".toList ⟨2023, 7, 4, 12, 30, 45, 1, 185, 0⟩
        ).setTime "UTC".toList ⟨2024, 1, 1, 0, 0, 0, 0, 1, 0⟩)._metadata) =
      some (.str "Jan".toList) := by
  have h := C1_setTime_nine_keys "UTC".toList (⟨2024, 1, 1, 0, 0, 0, 0, 1, 0⟩ : TimeTuple)
    (EntryBase.empty.setTime "UTC".toList ⟨2023, 7, 4, 12, 30, 45, 1, 185, 0⟩) (by decide)
  rw [h.1 "mo".toList (by decide)]
  decide

/-! ## Claims about the summary splitter -/

/-- C4: whenever the breakpoint pattern search finds no match in the
body, `cb_story` returns the entry unchanged and raises nothing: in
particular the body keeps its value and the `just_summary` flag is not
set — splitting is the identity on such bodies. -/
theorem C4_no_match_identity (cfg : ReadmoreConfig) (data : RequestData)
    (e : StoryEntry) (body : List Char)
    (hb : e.body = some body)
    (hm : reSearch (effBreakpoint cfg) body = none) :
    cb_story cfg data e = (e, false) := by
  simp [cb_story, hb, hm]

/-- C4 witness: a marker-free body in listing mode passes through. -/
theorem C4_no_match_identity_witness :
    cb_story ⟨none, none, none, none⟩ ⟨"date".toList, none⟩
      ⟨some "plain text".toList, "p".toList, none⟩ =
      (⟨some "plain text".toList, "p".toList, none⟩, false) :=
  C4_no_match_identity ⟨none, none, none, none⟩ ⟨"date".toList, none⟩
    ⟨some "plain text".toList, "p".toList, none⟩ "plain text".toList rfl (by decide)

/-- C10: in listing mode, when the pattern matches but the configuration
has no `base_url` key, `cb_story` raises a `KeyError` at render time and
the entry comes out exactly as it went in: original body, `just_summary`
still unset. -/
theorem C10_missing_base_url (cfg : ReadmoreConfig) (data : RequestData)
    (e : StoryEntry) (body : List Char) (i : Nat) (g2 : List Char)
    (hb : e.body = some body)
    (hm : reSearch (effBreakpoint cfg) body = some (i, g2))
    (hl : data.bl_type ≠ "file".toList)
    (hc : cfg.base_url = none) :
    cb_story cfg data e = (e, true) := by
  have hl' : ¬ data.bl_type = ['f', 'i', 'l', 'e'] := by simpa using hl
  simp [cb_story, hb, hm, hl', hc]

/-- C10 witness: listing mode, matching body, missing `base_url`. -/
theorem C10_missing_base_url_witness :
    cb_story ⟨none, none, none, none⟩ ⟨"date".toList, none⟩
      ⟨some "preBREAK\npost".toList, "p".toList, none⟩ =
      (⟨some "preBREAK\npost".toList, "p".toList, none⟩, true) :=
  C10_missing_base_url ⟨none, none, none, none⟩ ⟨"date".toList, none⟩
    ⟨some "preBREAK\npost".toList, "p".toList, none⟩ "preBREAK\npost".toList
    3 [] (by rfl) (by decide) (by decide) (by rfl)

/-! ### Single-entry mode strips the scanned occurrences (C2) -/

theorem splitOnMarkerAux_ne_nil (bp : List Char) (fuel : Nat) (l : List Char) :
    splitOnMarkerAux bp fuel l ≠ [] := by
  match fuel, l with
  | _, [] => simp [splitOnMarkerAux]
  | 0, c :: rest => simp [splitOnMarkerAux]
  | fuel + 1, c :: rest =>
    simp only [splitOnMarkerAux]
    split
    · simp
    · split <;> simp

theorem reSubEmptyAux_join (bp : List Char) :
    ∀ fuel l, l.length ≤ fuel →
      reSubEmptyAux bp fuel l = (splitOnMarkerAux bp fuel l).flatten := by
  intro fuel
  induction fuel with
  | zero =>
    intro l hl
    have hnil : l = [] := List.length_eq_zero.mp (Nat.le_zero.mp hl)
    subst hnil
    simp [reSubEmptyAux, splitOnMarkerAux]
  | succ fuel ih =>
    intro l hl
    match l with
    | [] => simp [reSubEmptyAux, splitOnMarkerAux]
    | c :: rest =>
      simp only [reSubEmptyAux, splitOnMarkerAux]
      by_cases hpre : 0 < bp.length ∧ bp.isPrefixOf (c :: rest)
      · rw [if_pos hpre, if_pos hpre]
        rw [ih ((c :: rest).drop bp.length)
          (by simp only [List.length_drop, List.length_cons] at *; omega)]
        simp
      · rw [if_neg hpre, if_neg hpre]
        have hrest : rest.length ≤ fuel := by
          simp only [List.length_cons] at hl; omega
        rw [ih rest hrest]
        cases hsp : splitOnMarkerAux bp fuel rest with
        | nil => exact absurd hsp (splitOnMarkerAux_ne_nil bp fuel rest)
        | cons seg segs => simp

theorem joinWith_splitOnMarkerAux (bp : List Char) :
    ∀ fuel l, l.length ≤ fuel → joinWith bp (splitOnMarkerAux bp fuel l) = l := by
  intro fuel
  induction fuel with
  | zero =>
    intro l hl
    have hnil : l = [] := List.length_eq_zero.mp (Nat.le_zero.mp hl)
    subst hnil
    simp [splitOnMarkerAux, joinWith]
  | succ fuel ih =>
    intro l hl
    match l with
    | [] => simp [splitOnMarkerAux, joinWith]
    | c :: rest =>
      simp only [splitOnMarkerAux]
      by_cases hpre : 0 < bp.length ∧ bp.isPrefixOf (c :: rest)
      · rw [if_pos hpre]
        obtain ⟨hlen, hprefix⟩ := hpre
        have hdec : bp ++ (c :: rest).drop bp.length = c :: rest := by
          have h1 : bp <+: c :: rest := List.isPrefixOf_iff_prefix.mp hprefix
          have h2 : bp = (c :: rest).take bp.length := List.prefix_iff_eq_take.mp h1
          conv_rhs => rw [← List.take_append_drop bp.length (c :: rest)]
          rw [← h2]
        have hrec := ih ((c :: rest).drop bp.length)
          (by simp only [List.length_drop, List.length_cons] at *; omega)
        cases hsp : splitOnMarkerAux bp fuel ((c :: rest).drop bp.length) with
        | nil => exact absurd hsp (splitOnMarkerAux_ne_nil bp fuel _)
        | cons s ss =>
          rw [hsp] at hrec
          simp only [joinWith, List.nil_append]
          rw [hrec, hdec]
      · rw [if_neg hpre]
        have hrest : rest.length ≤ fuel := by
          simp only [List.length_cons] at hl; omega
        have hrec := ih rest hrest
        cases hsp : splitOnMarkerAux bp fuel rest with
        | nil => exact absurd hsp (splitOnMarkerAux_ne_nil bp fuel rest)
        | cons s ss =>
          rw [hsp] at hrec
          cases ss with
          | nil =>
            simp only [joinWith] at hrec ⊢
            rw [hrec]
          | cons s2 ss2 =>
            simp only [joinWith] at hrec ⊢
            simp only [List.cons_append, ← hrec]

theorem reSearchAux_occurrence (bp : List Char) :
    ∀ l n i g2, reSearchAux bp l n = some (i, g2) →
      ∃ j, bp.isPrefixOf (l.drop j) = true := by
  intro l
  induction l with
  | nil => intro n i g2 h; simp [reSearchAux] at h
  | cons c rest ih =>
    intro n i g2 h
    by_cases hpre : bp.isPrefixOf (c :: rest) = true
    · exact ⟨0, by simpa using hpre⟩
    · simp only [reSearchAux, hpre] at h
      rw [if_neg (by simp [hpre])] at h
      obtain ⟨j, hj⟩ := ih (n + 1) i g2 h
      exact ⟨j + 1, by simpa using hj⟩

theorem occurrence_two_segments (bp : List Char) (hbp : 0 < bp.length) :
    ∀ fuel l, l.length ≤ fuel → ∀ j, bp.isPrefixOf (l.drop j) = true →
      2 ≤ (splitOnMarkerAux bp fuel l).length := by
  intro fuel
  induction fuel with
  | zero =>
    intro l hl j hj
    have hnil : l = [] := List.length_eq_zero.mp (Nat.le_zero.mp hl)
    subst hnil
    rw [List.drop_nil] at hj
    cases bp with
    | nil => simp at hbp
    | cons b bs => simp [List.isPrefixOf] at hj
  | succ fuel ih =>
    intro l hl j hj
    match l with
    | [] =>
      rw [List.drop_nil] at hj
      cases bp with
      | nil => simp at hbp
      | cons b bs => simp [List.isPrefixOf] at hj
    | c :: rest =>
      simp only [splitOnMarkerAux]
      by_cases hpre : 0 < bp.length ∧ bp.isPrefixOf (c :: rest)
      · rw [if_pos hpre]
        cases hsp : splitOnMarkerAux bp fuel ((c :: rest).drop bp.length) with
        | nil => exact absurd hsp (splitOnMarkerAux_ne_nil bp fuel _)
        | cons s ss => simp
      · rw [if_neg hpre]
        cases j with
        | zero =>
          rw [List.drop_zero] at hj
          exact absurd ⟨hbp, hj⟩ hpre
        | succ j' =>
          rw [List.drop_succ_cons] at hj
          have hrest : rest.length ≤ fuel := by
            simp only [List.length_cons] at hl; omega
          have h2 := ih rest hrest j' hj
          cases hsp : splitOnMarkerAux bp fuel rest with
          | nil => exact absurd hsp (splitOnMarkerAux_ne_nil bp fuel rest)
          | cons s ss =>
            rw [hsp] at h2
            simp only [List.length_cons] at h2 ⊢
            omega

/-- C2 counterexample: in single render mode, a body containing one
occurrence of the marker that is not followed by a newline or an opening
tag produces no pattern match, so `cb_story` leaves the body unchanged —
the occurrence is not removed, refuting the claim for such bodies.  The
second conjunct certifies that the body does contain exactly one
occurrence (two scan segments). -/
theorem C2_counterexample :
    cb_story ⟨none, none, none, none⟩ ⟨"file".toList, none⟩
        ⟨some "xBREAKy".toList, "p".toList, none⟩ =
      (⟨some "xBREAKy".toList, "p".toList, none⟩, false) ∧
    (splitOnMarker "BREAK".toList "xBREAKy".toList).length = 2 := by
  refine ⟨by decide, by decide⟩

/-- C2 (amended): in single render mode, for every body on which the
breakpoint pattern search finds a match (the marker being nonempty),
`cb_story` replaces the body by the concatenation of the `N + 1`
segments that the left-to-right scan finds between the `N ≥ 1`
occurrences of the marker — i.e. it removes all `N` scanned occurrences
and inserts no link — and raises nothing. -/
theorem C2_single_mode_strips (cfg : ReadmoreConfig) (data : RequestData)
    (e : StoryEntry) (body : List Char)
    (hb : e.body = some body)
    (hfile : data.bl_type = "file".toList)
    (hbp : 0 < (effBreakpoint cfg).length)
    (hmatch : reSearch (effBreakpoint cfg) body ≠ none) :
    cb_story cfg data e =
      ({ e with body := some ((splitOnMarker (effBreakpoint cfg) body).flatten) }, false) ∧
    joinWith (effBreakpoint cfg) (splitOnMarker (effBreakpoint cfg) body) = body ∧
    2 ≤ (splitOnMarker (effBreakpoint cfg) body).length := by
  obtain ⟨⟨i, g2⟩, hp⟩ := Option.ne_none_iff_exists'.mp hmatch
  refine ⟨?_, ?_, ?_⟩
  · have hsub : reSubEmpty (effBreakpoint cfg) body =
        (splitOnMarker (effBreakpoint cfg) body).flatten :=
      reSubEmptyAux_join (effBreakpoint cfg) body.length body le_rfl
    simp [cb_story, hb, hp, hfile, hsub]
  · exact joinWith_splitOnMarkerAux (effBreakpoint cfg) body.length body le_rfl
  · obtain ⟨j, hj⟩ := reSearchAux_occurrence (effBreakpoint cfg) body 0 i g2 hp
    exact occurrence_two_segments (effBreakpoint cfg) hbp body.length body le_rfl j hj

/-- C2 witness: a body with two scanned occurrences, both stripped. -/
theorem C2_single_mode_strips_witness :
    cb_story ⟨none, none, none, none⟩ ⟨"file".toList, none⟩
        ⟨some "aBREAKb\ncBREAKd".toList, "p".toList, none⟩ =
      (⟨some "ab\ncd".toList, "p".toList, none⟩, false) ∧
    joinWith "BREAK".toList (splitOnMarker "BREAK".toList "aBREAKb\ncBREAKd".toList) =
      "aBREAKb\ncBREAKd".toList ∧
    2 ≤ (splitOnMarker "BREAK".toList "aBREAKb\ncBREAKd".toList).length := by
  have h := C2_single_mode_strips ⟨none, none, none, none⟩ ⟨"file".toList, none⟩
    ⟨some "aBREAKb\ncBREAKd".toList, "p".toList, none⟩ "aBREAKb\ncBREAKd".toList
    rfl rfl (by decide) (by decide)
  refine ⟨?_, h.2.1, h.2.2⟩
  rw [h.1]
  decide

/-! ### Listing mode: truncation at the first match (C5, C6) -/

theorem findG2_cons_skip (c : Char) (rest : List Char)
    (h : group3Match (c :: rest) = false) (hc : (c == '\n') = false) :
    findG2 (c :: rest) = (findG2 rest).map (fun g => c :: g) := by
  have h' : ¬ (group3Match (c :: rest) = true) := by simp [h]
  have hc' : ¬ ((c == '\n') = true) := by simp [hc]
  simp only [findG2]
  rw [if_neg h', if_neg hc']

theorem findG2_append (post : List Char) :
    ∀ mid, '\n' ∉ mid →
      (∀ j, j < mid.length → group3Match (mid.drop j ++ '\n' :: post) = false) →
      findG2 (mid ++ '\n' :: post) = some mid := by
  intro mid
  induction mid with
  | nil =>
    intro _ _
    simp only [List.nil_append]
    rfl
  | cons c mid' ih =>
    intro hnl htag
    have h0 : group3Match (c :: (mid' ++ '\n' :: post)) = false := by
      have := htag 0 (by simp)
      simpa using this
    have hc : (c == '\n') = false := by
      simp only [List.mem_cons, not_or] at hnl
      simp only [beq_eq_false_iff_ne, ne_eq]
      exact fun h => hnl.1 h.symm
    have hnl' : '\n' ∉ mid' := by
      simp only [List.mem_cons, not_or] at hnl
      exact hnl.2
    have htag' : ∀ j, j < mid'.length → group3Match (mid'.drop j ++ '\n' :: post) = false := by
      intro j hj
      have := htag (j + 1) (by simp only [List.length_cons]; omega)
      simpa [List.drop_succ_cons] using this
    rw [List.cons_append, findG2_cons_skip c (mid' ++ '\n' :: post) h0 hc, ih hnl' htag']
    rfl

theorem reSearchAux_cons_found (bp : List Char) (c : Char) (rest : List Char)
    (n : Nat) (g2 : List Char)
    (hpre : bp.isPrefixOf (c :: rest) = true)
    (hg2 : findG2 ((c :: rest).drop bp.length) = some g2) :
    reSearchAux bp (c :: rest) n = some (n, g2) := by
  simp only [reSearchAux]
  rw [if_pos hpre, hg2]

theorem reSearchAux_cons_skip (bp : List Char) (c : Char) (rest : List Char) (n : Nat)
    (h : bp.isPrefixOf (c :: rest) = false) :
    reSearchAux bp (c :: rest) n = reSearchAux bp rest (n + 1) := by
  have h' : ¬ (bp.isPrefixOf (c :: rest) = true) := by simp [h]
  simp only [reSearchAux]
  rw [if_neg h']

theorem reSearchAux_at (bp : List Char) (hbp : bp ≠ []) :
    ∀ pre rest n g2,
      (∀ j, j < pre.length → bp.isPrefixOf ((pre ++ bp ++ rest).drop j) = false) →
      findG2 rest = some g2 →
      reSearchAux bp (pre ++ bp ++ rest) n = some (n + pre.length, g2) := by
  intro pre
  induction pre with
  | nil =>
    intro rest n g2 hno hg2
    match bp, hbp with
    | b :: bs, _ =>
      have hpre : (b :: bs).isPrefixOf ((b :: bs) ++ rest) = true :=
        List.isPrefixOf_iff_prefix.mpr (List.prefix_append _ _)
      have hdrop : ((b :: bs) ++ rest).drop (b :: bs).length = rest :=
        List.drop_left _ _
      have hcons : (b :: bs) ++ rest = b :: (bs ++ rest) := List.cons_append b bs rest
      rw [hcons] at hpre hdrop
      simp only [List.nil_append, List.length_nil, Nat.add_zero]
      rw [hcons]
      exact reSearchAux_cons_found (b :: bs) b (bs ++ rest) n g2 hpre
        (by rw [hdrop]; exact hg2)
  | cons c pre' ih =>
    intro rest n g2 hno hg2
    have h0 : bp.isPrefixOf (c :: (pre' ++ bp ++ rest)) = false := by
      have := hno 0 (by simp)
      simpa using this
    have hno' : ∀ j, j < pre'.length →
        bp.isPrefixOf ((pre' ++ bp ++ rest).drop j) = false := by
      intro j hj
      have := hno (j + 1) (by simp only [List.length_cons]; omega)
      simpa [List.drop_succ_cons] using this
    have hrec := ih rest (n + 1) g2 hno' hg2
    have hgoal : n + (c :: pre').length = n + 1 + pre'.length := by
      simp only [List.length_cons]; omega
    rw [hgoal, List.cons_append, List.cons_append,
      reSearchAux_cons_skip bp c (pre' ++ bp ++ rest) n h0]
    exact hrec

/-- C5: in listing mode, when the body is `pre ++ marker ++ '\n' :: post`
with no occurrence of the (nonempty) marker starting before `pre` ends —
in particular when the body has exactly one marker, followed immediately
by a newline — the resulting body is exactly the text before the marker
followed by the rendered link and nothing else (the captured trailing
remainder is empty: everything from the marker on, including `post`, is
gone), and `just_summary` is set to 1. -/
theorem C5_listing_marker_newline (cfg : ReadmoreConfig) (data : RequestData)
    (e : StoryEntry) (pre post burl : List Char)
    (hb : e.body = some (pre ++ effBreakpoint cfg ++ '\n' :: post))
    (hbp : effBreakpoint cfg ≠ [])
    (huniq : ∀ j, j < pre.length →
      (effBreakpoint cfg).isPrefixOf
        ((pre ++ effBreakpoint cfg ++ '\n' :: post).drop j) = false)
    (hl : data.bl_type ≠ "file".toList)
    (hurl : cfg.base_url = some burl) :
    cb_story cfg data e =
      ({ e with just_summary := some 1,
                body := some (pre ++ readmoreLink cfg data e.file_path burl) }, false) := by
  have hsearch : reSearch (effBreakpoint cfg) (pre ++ effBreakpoint cfg ++ '\n' :: post) =
      some (pre.length, []) := by
    have h := reSearchAux_at (effBreakpoint cfg) hbp pre ('\n' :: post) 0 [] huniq rfl
    simpa [reSearch] using h
  have hl' : ¬ data.bl_type = ['f', 'i', 'l', 'e'] := by simpa using hl
  have htake : (pre ++ effBreakpoint cfg ++ '\n' :: post).take pre.length = pre := by
    rw [List.append_assoc]
    exact List.take_left _ _
  rw [List.append_assoc] at hsearch htake
  simp [cb_story, hb, hsearch, hl', hurl, htake]

/-- C5 witness: default configuration, one marker followed by a newline;
the body becomes the prefix plus the rendered default link. -/
theorem C5_listing_marker_newline_witness :
    cb_story ⟨none, none, some "hb".toList, none⟩ ⟨"date".toList, none⟩
        ⟨some "Hello. BREAK\nRest.".toList, "fp".toList, none⟩ =
      (⟨some ("Hello. ".toList ++
          ("<p class=\"readmore\"><a href=\"hb/fp.html\">" ++
           "read more after the break...</a></p>").toList),
        "fp".toList, some 1⟩, false) := by
  have h := C5_listing_marker_newline ⟨none, none, some "hb".toList, none⟩
    ⟨"date".toList, none⟩ ⟨some "Hello. BREAK\nRest.".toList, "fp".toList, none⟩
    "Hello. ".toList "Rest.".toList "hb".toList (by decide) (by decide)
    (by decide) (by decide) rfl
  rw [h]
  decide

/-- C6: in listing mode, when the marker is followed on the same line by
trailing text `mid` (no newline in it, and at no position of it does the
opening-tag alternative of the search pattern match — e.g. an inline
closing tag such as a paragraph-closing tag) and then a newline, the
captured trailing text is preserved in the output immediately after the
inserted link: the body becomes `pre ++ link ++ mid`. -/
theorem C6_listing_inline_tag_kept (cfg : ReadmoreConfig) (data : RequestData)
    (e : StoryEntry) (pre mid post burl : List Char)
    (hb : e.body = some (pre ++ effBreakpoint cfg ++ (mid ++ '\n' :: post)))
    (hbp : effBreakpoint cfg ≠ [])
    (hnl : '\n' ∉ mid)
    (htag : ∀ j, j < mid.length → group3Match (mid.drop j ++ '\n' :: post) = false)
    (huniq : ∀ j, j < pre.length →
      (effBreakpoint cfg).isPrefixOf
        ((pre ++ effBreakpoint cfg ++ (mid ++ '\n' :: post)).drop j) = false)
    (hl : data.bl_type ≠ "file".toList)
    (hurl : cfg.base_url = some burl) :
    cb_story cfg data e =
      ({ e with just_summary := some 1,
                body := some (pre ++ readmoreLink cfg data e.file_path burl ++ mid) },
       false) := by
  have hg2 : findG2 (mid ++ '\n' :: post) = some mid := findG2_append post mid hnl htag
  have hsearch : reSearch (effBreakpoint cfg)
      (pre ++ effBreakpoint cfg ++ (mid ++ '\n' :: post)) = some (pre.length, mid) := by
    have h := reSearchAux_at (effBreakpoint cfg) hbp pre (mid ++ '\n' :: post) 0 mid huniq hg2
    simpa [reSearch] using h
  have hl' : ¬ data.bl_type = ['f', 'i', 'l', 'e'] := by simpa using hl
  have htake : (pre ++ effBreakpoint cfg ++ (mid ++ '\n' :: post)).take pre.length = pre := by
    rw [List.append_assoc]
    exact List.take_left _ _
  rw [List.append_assoc] at hsearch htake
  simp [cb_story, hb, hsearch, hl', hurl, htake]

/-- C6 witness: the marker wrapped by a closing paragraph tag before the
newline; the tag text survives right after the link. -/
theorem C6_listing_inline_tag_kept_witness :
    cb_story ⟨none, none, some "hb".toList, none⟩ ⟨"date".toList, none⟩
        ⟨some "Hi.BREAK</p>\nMore.".toList, "fp".toList, none⟩ =
      (⟨some ("Hi.".toList ++
          ("<p class=\"readmore\"><a href=\"hb/fp.html\">" ++
           "read more after the break...</a></p>").toList ++ "</p>".toList),
        "fp".toList, some 1⟩, false) := by
  have h := C6_listing_inline_tag_kept ⟨none, none, some "hb".toList, none⟩
    ⟨"date".toList, none⟩ ⟨some "Hi.BREAK</p>\nMore.".toList, "fp".toList, none⟩
    "Hi.".toList "</p>".toList "More.".toList "hb".toList (by decide) (by decide)
    (by decide) (by decide) (by decide) (by decide) rfl
  rw [h]
  decide

/-- C8 witness: deleting from an empty metadata map raises and leaves
the entry unchanged. -/
theorem C8_delete_iff_present_witness :
    (EntryBase.empty.delItemRun "x".toList).2 = true ∧
    (EntryBase.empty.delItemRun "x".toList).1 = EntryBase.empty :=
  ⟨by rw [(C8_delete_iff_present EntryBase.empty "x".toList).1]; decide,
   (C8_delete_iff_present EntryBase.empty "x".toList).2.2.2 (by decide)⟩
